import Mathlib

/-!
# Verification of the OMTIS NetSuite synchronization scripts

Shallow embedding of the synchronization pipeline of the `omtis-scripts`
repository: the rate-limited request helper with its 429 retry discipline,
the per-record enrichment fetchers (price selection, inactive short-circuit),
the offset pagination sweep, the per-record fault-isolating sync loops, the
movement-data join, the numeric/path/date coercion helpers, and the
upsert-by-`internalId` write.

Machine numbers from the JavaScript source are modelled as rationals tagged
with the IEEE special values (`JNum`), JSON-ish payloads as a small variant
tree (`JSValue`), and every network call as an explicit oracle argument so
the call counts and outcomes are visible to the theorems.
-/

namespace OmtisScripts

/-! ## Rate-limited request helper (`netsuiteRequest`)

From `src/utils/netsuiteRequest.js` (the same helper is duplicated verbatim
in `src/scripts/syncInventory.js` and in the full-sweep script): on a
rejection whose response status is 429 and with retries remaining, wait
`(4 - retries) * 5000` ms and recurse with `retries - 1`; any other failure
is rethrown immediately. -/

/-- Outcome of one upstream attempt: the promise resolves, or rejects with
an optional HTTP status (`none` models a transport error with no response). -/
inductive AttemptResult where
  | success : AttemptResult
  | failure (status : Option Nat) : AttemptResult
deriving DecidableEq, Repr

/-- What a whole `netsuiteRequest` call did: whether it ultimately resolved,
how many upstream attempts it made, and the backoff waits (ms) it slept
between consecutive attempts. -/
structure ReqResult where
  ok : Bool
  attempts : Nat
  waits : List Nat
deriving DecidableEq, Repr

/-- `netsuiteRequest` from `src/utils/netsuiteRequest.js`. The upstream is an
oracle from attempt index to outcome; `attempt` is the index of the next
attempt and `retries` the remaining retry budget (source default 3). -/
def netsuiteRequest (upstream : Nat → AttemptResult) : Nat → Nat → ReqResult
  | attempt, 0 =>
    match upstream attempt with
    | .success => ⟨true, 1, []⟩
    | .failure _ => ⟨false, 1, []⟩
  | attempt, r + 1 =>
    match upstream attempt with
    | .success => ⟨true, 1, []⟩
    | .failure st =>
      if st = some 429 then
        let rest := netsuiteRequest upstream (attempt + 1) r
        ⟨rest.ok, rest.attempts + 1, (4 - (r + 1)) * 5000 :: rest.waits⟩
      else ⟨false, 1, []⟩

/-! ## JavaScript value model

Upstream payloads are JSON-ish values. JavaScript numbers are modelled as
exact rationals tagged with the IEEE special values (`JNum.nan`,
`JNum.posInf`, `JNum.negInf`); rounding of decimal literals to binary64 is
idealised away, which is irrelevant to every claim below. -/

/-- A JavaScript number: a finite (idealised, exact) value or one of the
special values. -/
inductive JNum where
  | finite (q : ℚ)
  | nan
  | posInf
  | negInf
deriving DecidableEq

/-- `Number.isFinite`-style test. -/
def JNum.isFinite : JNum → Bool
  | .finite _ => true
  | _ => false

/-- `isNaN` on an already-numeric value. -/
def JNum.isNaN : JNum → Bool
  | .nan => true
  | _ => false

/-- A JavaScript value as it appears in the upstream JSON payloads:
`null`, `undefined` (absent), boolean, number, string, or object
(an association list of fields). Arrays are not needed by any claim. -/
inductive JSValue where
  | null
  | undef
  | bool (b : Bool)
  | num (n : JNum)
  | str (s : String)
  | obj (fields : List (String × JSValue))

/-- Object field lookup: models both the `field in value` membership test
(`some` vs `none`) and the subsequent `value[field]` access. -/
def getField : List (String × JSValue) → String → Option JSValue
  | [], _ => none
  | (k, v) :: rest, key => if k = key then some v else getField rest key

/-- JavaScript truthiness of a value. -/
def truthy : JSValue → Bool
  | .null => false
  | .undef => false
  | .bool b => b
  | .num (.finite q) => if q = 0 then false else true
  | .num .nan => false
  | .num .posInf => true
  | .num .negInf => true
  | .str s => if s = "" then false else true
  | .obj _ => true

/-- Whitespace skipped by `parseFloat` / `parseInt`. -/
def isSpaceChar (c : Char) : Bool :=
  c = ' ' || c = '\t' || c = '\n' || c = '\r'

/-- Drop leading whitespace. -/
def dropSpaces : List Char → List Char
  | [] => []
  | c :: rest => if isSpaceChar c then dropSpaces rest else c :: rest

/-- Split a leading run of decimal digits from the rest. -/
def takeDigits : List Char → List Char × List Char
  | [] => ([], [])
  | c :: rest =>
    if c.isDigit then
      let (ds, r) := takeDigits rest
      (c :: ds, r)
    else ([], c :: rest)

/-- Value of a digit run. -/
def digitsToNat (ds : List Char) : Nat :=
  ds.foldl (fun a c => a * 10 + (c.toNat - '0'.toNat)) 0

/-- The exponent part of a decimal literal (after the significand):
`e`/`E`, optional sign, digits; ignored when no digits follow, as
`parseFloat` takes the longest valid literal prefix. -/
def parseExponent (cs : List Char) : Int :=
  match cs with
  | e :: r =>
    if e = 'e' || e = 'E' then
      match r with
      | '+' :: r2 => (match takeDigits r2 with | ([], _) => 0 | (ds, _) => (digitsToNat ds : Int))
      | '-' :: r2 => (match takeDigits r2 with | ([], _) => 0 | (ds, _) => -(digitsToNat ds : Int))
      | _ => (match takeDigits r with | ([], _) => 0 | (ds, _) => (digitsToNat ds : Int))
    else 0
  | [] => 0

/-- The shape of an unsigned float literal prefix: `NaN` (no digits), the
`Infinity` literal, or mantissa digits with a fraction length and a decimal
exponent. Kept ℚ-free so that parsing is kernel-evaluable. -/
inductive FloatLit where
  | nan
  | inf
  | lit (mant : Nat) (fracLen : Nat) (exp : Int)
deriving DecidableEq

/-- Unsigned body of `parseFloat`: the `Infinity` literal, or digits with
optional fraction and exponent; `nan` when there is no digit at all. -/
def parseFloatCore (cs : List Char) : FloatLit :=
  if List.isPrefixOf "Infinity".toList cs then .inf
  else
    let (intDs, r1) := takeDigits cs
    let (fracDs, r2) :=
      match r1 with
      | '.' :: r => takeDigits r
      | _ => ([], r1)
    if intDs = [] && fracDs = [] then .nan
    else .lit (digitsToNat (intDs ++ fracDs)) fracDs.length (parseExponent r2)

/-- Whitespace and sign handling of `parseFloat`, returning the sign and
the parsed literal shape. -/
def parseFloatRaw (s : String) : Bool × FloatLit :=
  match dropSpaces s.toList with
  | '+' :: rest => (false, parseFloatCore rest)
  | '-' :: rest => (true, parseFloatCore rest)
  | cs => (false, parseFloatCore cs)

/-- The rational value denoted by a signed decimal literal. -/
def litValue (neg : Bool) (mant fracLen : Nat) (exp : Int) : ℚ :=
  (if neg then -(mant : ℚ) else (mant : ℚ)) / (10 : ℚ) ^ fracLen * (10 : ℚ) ^ exp

/-- Model of JavaScript `parseFloat`: skip whitespace, optional sign,
`Infinity` or longest decimal-literal prefix, `NaN` otherwise. Decimal
values are kept exact (no binary64 rounding). -/
def parseFloat (s : String) : JNum :=
  match parseFloatRaw s with
  | (_, .nan) => .nan
  | (neg, .inf) => if neg then .negInf else .posInf
  | (neg, .lit m f e) => .finite (litValue neg m f e)

/-- Leading digit run as an integer, `none` for `NaN`. -/
def parseIntDigits (cs : List Char) : Option Int :=
  match takeDigits cs with
  | ([], _) => none
  | (ds, _) => some (digitsToNat ds : Int)

/-- Model of JavaScript `parseInt(s, 10)`: skip whitespace, optional sign,
longest leading digit run; `none` models `NaN`. -/
def parseInt (s : String) : Option Int :=
  match dropSpaces s.toList with
  | '+' :: rest => parseIntDigits rest
  | '-' :: rest => (parseIntDigits rest).map Neg.neg
  | cs => parseIntDigits cs

/-- JavaScript `String.prototype.split` with a one-character separator
(structural, so proofs can evaluate it): `"".split(sep)` is `[""]`,
separators at the ends produce empty pieces. -/
def splitOnChar (sep : Char) : List Char → List (List Char)
  | [] => [[]]
  | c :: rest =>
    if c = sep then [] :: splitOnChar sep rest
    else
      match splitOnChar sep rest with
      | w :: ws => (c :: w) :: ws
      | [] => [[c]]

/-- String-level wrapper of `splitOnChar`. -/
def splitStr (sep : Char) (s : String) : List String :=
  (splitOnChar sep s.toList).map String.mk

/-! ## Field extraction helpers (`extractValue`, `extractNumericValue`)

From `src/scripts/syncInventory.js` lines 33–78; the identical functions
appear in the full-sweep script. -/

/-- The `for (const field of fields)` walk of `extractValue`: descend while
the current value is a (truthy) object containing the segment; `none` models
the early `return ''` on a missing segment. In this value model only `obj`
has `typeof === "object"` truthy. -/
def extractFieldsLoop : JSValue → List String → Option JSValue
  | value, [] => some value
  | value, field :: rest =>
    match value with
    | .obj fs =>
      match getField fs field with
      | some v => extractFieldsLoop v rest
      | none => none
    | _ => none

/-- The `x || ''` idiom: a falsy value collapses to the empty string. -/
def orEmpty (v : JSValue) : JSValue :=
  if truthy v then v else .str ""

/-- `extractValue(data, fieldPath)`: walk the dotted path, unwrap a
`refName` carried by a terminal object, and collapse any falsy outcome to
the empty string (`value || ''`). -/
def extractValue (data : JSValue) (fieldPath : String) : JSValue :=
  match extractFieldsLoop data (splitStr '.' fieldPath) with
  | none => .str ""
  | some value =>
    match value with
    | .obj fs =>
      match getField fs "refName" with
      | some rn => orEmpty rn
      | none => orEmpty value
    | _ => orEmpty value

/-- `extractNumericValue(data, fieldName)`: root-level field access with
coercion — `null`/`undefined`/absent and unparseable strings give `0`,
numbers are returned as they are, strings go through `parseFloat` with an
`isNaN` guard, anything else gives `0`. `data` is the (object) upstream
record, given as its field list. -/
def extractNumericValue (data : List (String × JSValue)) (fieldName : String) : JNum :=
  match getField data fieldName with
  | none => .finite 0
  | some value =>
    match value with
    | .null => .finite 0
    | .undef => .finite 0
    | .num n => n
    | .str s =>
      let parsed := parseFloat s
      if parsed.isNaN then .finite 0 else parsed
    | _ => .finite 0

/-! ## Date parsing (`parseNetSuiteDate`)

From `src/services/netsuiteService.js` lines 941–958. -/

/-- The value of JavaScript `new Date(year, month, day)` as called by
`parseNetSuiteDate`: `invalid` when any argument is `NaN`, otherwise the
constructor arguments are recorded as given (`month` 0-indexed; in-range
arguments denote the evident calendar date, out-of-range ones are
normalised by JavaScript — such normalisation never yields `invalid`). -/
inductive JSDate where
  | invalid
  | mk (year : Int) (month : Int) (day : Int)
deriving DecidableEq

/-- `parseNetSuiteDate(dateString)`: falsy input gives `null` (`none`);
exactly three `/`-separated parts are fed through `parseInt` into the
`Date` constructor (day/month/year, month decremented); any other shape
gives `null`. -/
def parseNetSuiteDate (dateString : Option String) : Option JSDate :=
  match dateString with
  | none => none
  | some s =>
    if s = "" then none
    else
      match splitStr '/' s with
      | [p1, p2, p3] =>
        match parseInt p1, parseInt p2, parseInt p3 with
        | some d, some m, some y => some (.mk y (m - 1) d)
        | _, _, _ => some .invalid
      | _ => none

/-! ## Price selection (`fetchPriceInformation`)

From the full-sweep script (`src/unnamed/part_002` lines 355–420); the
identical function appears in `src/scripts/syncInventory.js`. The network
layer is abstracted away: the function is modelled over the list of
per-level `fetchPriceDetail` results in response order, where `none` is a
failed detail fetch (the source's `if (!detail) continue`). -/

/-- One price-detail response: the level name and its `price` field
(`none` models `null`/absent, collapsed to `0` by `detail.price || 0`). -/
structure PriceDetail where
  priceLevelName : String
  price : Option ℚ
deriving DecidableEq

/-- The `{price, currency, tradePrice, retailPrice}` object returned by
`fetchPriceInformation`. -/
structure PriceData where
  price : ℚ
  currency : String
  tradePrice : ℚ
  retailPrice : ℚ
deriving DecidableEq

/-- The mutable locals of the scan loop in `fetchPriceInformation`. -/
structure PriceScanState where
  price : ℚ
  currency : String
  tradePrice : ℚ
  retailPrice : ℚ
  hasTradePrice : Bool
  hasRetailPrice : Bool
deriving DecidableEq

/-- Substring test for `itemCurrency?.includes(...)`. -/
def containsSubstr (s pat : String) : Bool :=
  go s.toList
where
  go : List Char → Bool
    | [] => List.isPrefixOf pat.toList []
    | c :: rest => List.isPrefixOf pat.toList (c :: rest) || go rest

/-- The initial `currency` local: `"HKD"`, overridden to `"EUR"`/`"USD"`
when the item's currency `refName` contains that substring
(`itemCurrency?.includes(...)`; `none` models an absent field). -/
def initCurrency (itemCurrency : Option String) : String :=
  match itemCurrency with
  | some c =>
    if containsSubstr c "EUR" then "EUR"
    else if containsSubstr c "USD" then "USD"
    else "HKD"
  | none => "HKD"

/-- The `for (const priceItem of ...)` scan: break once both levels were
found, skip failed detail fetches, record a `"WLP (Base)"` level as
`tradePrice` and a `"LPCP (HKD)"` level as `retailPrice` + display
`price`/`currency`. -/
def priceScanLoop : List (Option PriceDetail) → PriceScanState → PriceScanState
  | [], st => st
  | d :: rest, st =>
    if st.hasTradePrice && st.hasRetailPrice then st
    else
      match d with
      | none => priceScanLoop rest st
      | some detail =>
        let st1 :=
          if detail.priceLevelName = "WLP (Base)" then
            { st with tradePrice := detail.price.getD 0, hasTradePrice := true }
          else st
        let st2 :=
          if detail.priceLevelName = "LPCP (HKD)" then
            { st1 with retailPrice := detail.price.getD 0, price := detail.price.getD 0,
                       currency := "HKD", hasRetailPrice := true }
          else st1
        priceScanLoop rest st2

/-- `fetchPriceInformation` (success path): run the scan from the initial
state, then apply the fallback `if (!price && tradePrice) price = tradePrice`. -/
def fetchPriceInformation (itemCurrency : Option String)
    (details : List (Option PriceDetail)) : PriceData :=
  let st := priceScanLoop details ⟨0, initCurrency itemCurrency, 0, 0, false, false⟩
  ⟨if st.price = 0 ∧ st.tradePrice ≠ 0 then st.tradePrice else st.price,
   st.currency, st.tradePrice, st.retailPrice⟩

/-- Number of successfully fetched details having the given level name. -/
def levelCount (name : String) (ds : List (Option PriceDetail)) : Nat :=
  (ds.filterMap id).countP (fun d => d.priceLevelName == name)

/-- Price of the first successfully fetched detail with the given level
name (already collapsed through `detail.price || 0`). -/
def levelVal (name : String) (ds : List (Option PriceDetail)) : Option ℚ :=
  ((ds.filterMap id).find? (fun d => d.priceLevelName == name)).map (fun d => d.price.getD 0)

/-! ## Per-record enrichment fetch (`fetchInventoryItemDetail`)

Two copies exist in the repository: the full-sweep script's
(`src/unnamed/part_002` lines 249–322), which short-circuits inactive
records, and the one in `src/scripts/syncInventory.js` lines 109–165,
which has no inactive check. Both are modelled, the latter under
`SyncScript`. Sub-fetches are oracles so the theorems can count them. -/

/-- A HATEOAS link target. -/
structure Href where
  href : String
deriving DecidableEq

/-- The fields of the base record consumed by the fetcher. `isInactive`
is `none` when the flag is absent from the payload; empty link lists model
absent or empty `price.links` / `locations.links`. -/
structure ItemRecord where
  isInactive : Option Bool
  priceLinks : List Href
  currencyRefName : Option String
  locationLinks : List Href
deriving DecidableEq

/-- One location detail as built by `fetchLocationDetails`. -/
structure LocationData where
  locationId : String
  location : String
  quantityOnHand : ℚ
  quantityAvailable : ℚ
deriving DecidableEq

/-- The enriched record returned by `fetchInventoryItemDetail`: the spread
base record plus `priceData`, `locationsData`, `totalQuantity`. -/
structure EnrichedItem where
  base : ItemRecord
  isInactive : Option Bool
  priceData : PriceData
  locationsData : List LocationData
  totalQuantity : ℚ
deriving DecidableEq

/-- How many price-information and location-list fetches a
`fetchInventoryItemDetail` call issued. -/
structure FetchCounts where
  priceFetches : Nat
  locationFetches : Nat
deriving DecidableEq

/-- `fetchInventoryItemDetail` of the full-sweep script: `none` base models
a failed base fetch (caught, returns `null`); an `isInactive === true`
record returns immediately with zeroed price/location sub-structures and
no sub-fetch; otherwise price information is fetched iff `price.links` is
non-empty and locations iff `locations.links` is non-empty, with
`totalQuantity` summed over the fetched locations. The oracles stand for
`fetchPriceInformation` / `fetchItemLocations`, both of which catch their
own errors. -/
def fetchInventoryItemDetail (base : Option ItemRecord)
    (priceOracle : Href → PriceData) (locOracle : Href → List LocationData) :
    Option EnrichedItem × FetchCounts :=
  match base with
  | none => (none, ⟨0, 0⟩)
  | some data =>
    if data.isInactive = some true then
      (some ⟨data, some true, ⟨0, "HKD", 0, 0⟩, [], 0⟩, ⟨0, 0⟩)
    else
      let priceStep : PriceData × Nat :=
        match data.priceLinks with
        | [] => (⟨0, "HKD", 0, 0⟩, 0)
        | l :: _ => (priceOracle l, 1)
      let locStep : List LocationData × Nat :=
        match data.locationLinks with
        | [] => ([], 0)
        | l :: _ => (locOracle l, 1)
      let totalQuantity : ℚ :=
        match data.locationLinks with
        | [] => 0
        | _ :: _ => (locStep.1.map (fun loc => loc.quantityAvailable)).sum
      (some ⟨data, data.isInactive, priceStep.1, locStep.1, totalQuantity⟩,
       ⟨priceStep.2, locStep.2⟩)

namespace SyncScript

/-- `fetchInventoryItemDetail` of `src/scripts/syncInventory.js`: identical
to the full-sweep one except that it has no inactive short-circuit — the
price and location fetches run regardless of `isInactive`. -/
def fetchInventoryItemDetail (base : Option ItemRecord)
    (priceOracle : Href → PriceData) (locOracle : Href → List LocationData) :
    Option EnrichedItem × FetchCounts :=
  match base with
  | none => (none, ⟨0, 0⟩)
  | some data =>
    let priceStep : PriceData × Nat :=
      match data.priceLinks with
      | [] => (⟨0, "HKD", 0, 0⟩, 0)
      | l :: _ => (priceOracle l, 1)
    let locStep : List LocationData × Nat :=
      match data.locationLinks with
      | [] => ([], 0)
      | l :: _ => (locOracle l, 1)
    let totalQuantity : ℚ :=
      match data.locationLinks with
      | [] => 0
      | _ :: _ => (locStep.1.map (fun loc => loc.quantityAvailable)).sum
    (some ⟨data, data.isInactive, priceStep.1, locStep.1, totalQuantity⟩,
     ⟨priceStep.2, locStep.2⟩)

end SyncScript

/-! ## The full-sweep orchestration loop (`syncAllInventory`)

From `src/unnamed/part_002` lines 916–995. What the environment does for
one item id — fetch returning `null`, an exception caught by the per-item
`try`, an inactive skip, a successful upsert, or a save error — is an
oracle from id to outcome; the report counters, error list and store are
threaded explicitly. -/

/-- Everything that can happen while processing one item id. -/
inductive ItemOutcome where
  | fetchNull
  | procError (msg : String)
  | inactive
  | saveOk
  | saveError (msg : String)
deriving DecidableEq

/-- The error message appended for an outcome, if any. -/
def outcomeError : ItemOutcome → Option String
  | .fetchNull => some "Failed to fetch details"
  | .procError m => some m
  | .saveError m => some m
  | .inactive => none
  | .saveOk => none

/-- The run's counters, error list, and the set (list) of item ids stored
so far. -/
structure SyncReport where
  processed : Nat
  saved : Nat
  skippedInactive : Nat
  errors : List (Nat × String)
  store : List Nat
deriving DecidableEq

/-- Id-level view of the `findOneAndUpdate(..., { upsert: true })` write. -/
def upsertId (store : List Nat) (id : Nat) : List Nat :=
  if id ∈ store then store else store ++ [id]

/-- One iteration of the `for (const item of items)` body: `processedCount`
always advances; failures append to `errors`; an inactive record only bumps
`skippedInactiveCount`; a successful save bumps `savedCount` and upserts. -/
def processItem (st : SyncReport) (id : Nat) : ItemOutcome → SyncReport
  | .fetchNull =>
    { st with processed := st.processed + 1,
              errors := st.errors ++ [(id, "Failed to fetch details")] }
  | .procError m =>
    { st with processed := st.processed + 1, errors := st.errors ++ [(id, m)] }
  | .inactive =>
    { st with processed := st.processed + 1, skippedInactive := st.skippedInactive + 1 }
  | .saveOk =>
    { st with processed := st.processed + 1, saved := st.saved + 1,
              store := upsertId st.store id }
  | .saveError m =>
    { st with processed := st.processed + 1, errors := st.errors ++ [(id, m)] }

/-- The item loop of `syncAllInventory`. -/
def syncLoop (outcome : Nat → ItemOutcome) : List Nat → SyncReport → SyncReport
  | [], st => st
  | id :: rest, st => syncLoop outcome rest (processItem st id (outcome id))

/-- `syncAllInventory` over a fetched candidate list, starting from zeroed
counters and the pre-existing store. -/
def syncAllInventory (store0 : List Nat) (ids : List Nat)
    (outcome : Nat → ItemOutcome) : SyncReport :=
  syncLoop outcome ids ⟨0, 0, 0, [], store0⟩

/-! ## Offset pagination (`fetchAllInventoryItems`)

From `src/unnamed/part_002` lines 148–246. The upstream is an oracle from
`(offset, limit)` to either a page (`{items, hasMore, totalResults}`) or a
fetch error (`none`). The `while (hasMore)` loop is given explicit fuel:
the source can genuinely loop forever (an upstream that repeats
`hasMore: true` with zero items never advances `offset`), so fuel only
caps unfoldings and every theorem below holds for any sufficient fuel. -/

/-- One listing response. `totalResults = none` models an absent field. -/
structure FetchPage where
  items : List Nat
  hasMoreFlag : Bool
  totalResults : Option Nat
deriving DecidableEq

/-- The `maxItems !== null && allItems.length >= maxItems` stop test. -/
def maxReached : Option Nat → Nat → Bool
  | some m, n => decide (m ≤ n)
  | none, _ => false

/-- The bound `totalResults || 100000` of the error-path stop test:
JavaScript `||` treats both a `null` total and an observed total of `0`
as falsy, substituting 100000. -/
def totalBound : Option Nat → Nat
  | none => 100000
  | some t => if t = 0 then 100000 else t

/-- The body of the pagination loop. Arguments after the configuration:
fuel, the `hasMore` flag, `allItems`, `offset`, `totalResults`. On a page
error, `offset` advances by one page width (`limit`) and the sweep stops
only when the adjusted offset passes `totalResults || 100000`. -/
def fetchAllLoop (fetch : Nat → Nat → Option FetchPage) (maxItems : Option Nat)
    (limit : Nat) : Nat → Bool → List Nat → Nat → Option Nat → List Nat
  | _, false, acc, _, _ => acc
  | 0, true, acc, _, _ => acc
  | fuel + 1, true, acc, offset, total =>
    if maxReached maxItems acc.length then acc.take (maxItems.getD 0)
    else
      let itemsToFetch :=
        match maxItems with
        | some m => min limit (m - acc.length)
        | none => limit
      match fetch offset itemsToFetch with
      | some resp =>
        let total2 :=
          match total, resp.totalResults with
          | none, some t => some t
          | t, _ => t
        fetchAllLoop fetch maxItems limit fuel resp.hasMoreFlag (acc ++ resp.items)
          (offset + resp.items.length) total2
      | none =>
        if offset + limit > totalBound total then
          fetchAllLoop fetch maxItems limit fuel false acc (offset + limit) total
        else
          fetchAllLoop fetch maxItems limit fuel true acc (offset + limit) total

/-- `fetchAllInventoryItems({batchSize, maxItems})`: page size capped at the
NetSuite maximum 1000, starting from an empty accumulator at offset 0 with
no total observed. -/
def fetchAllInventoryItems (fetch : Nat → Nat → Option FetchPage)
    (batchSize : Nat) (maxItems : Option Nat) (fuel : Nat) : List Nat :=
  fetchAllLoop fetch maxItems (min batchSize 1000) fuel true [] 0 none

/-- A mock upstream serving the given pages consecutively: the request at
the cumulative offset of the first `i` pages returns page `i`, with
`hasMore` true exactly while pages remain; anything else (past the end or
misaligned) returns an empty no-more page. -/
def pageAt : List (List Nat) → Nat → FetchPage
  | [], _ => ⟨[], false, none⟩
  | p :: rest, off =>
    if off = 0 then ⟨p, !rest.isEmpty, none⟩
    else if p.length ≤ off then pageAt rest (off - p.length)
    else ⟨[], false, none⟩

/-! ## Movement-data join (`/api/inventory/update-movement` handler)

From `src/services/netsuiteService.js` lines 1029–1084 (map construction
and per-id update) over the rows returned by `fetchMovementDataForItems`. -/

/-- One SuiteQL result row. -/
structure MovementRow where
  item_id : String
  moved_last_12_months : JSValue
  last_movement_date : Option String

/-- The stored movement sub-record (`$set` payload). -/
structure Movement where
  last_movement_date : Option JSDate
  moved_last_12_months : Bool
deriving DecidableEq

/-- The `=== "1" || === 1 || === true` test on a row's movement flag. -/
def movedTruthTest : JSValue → Bool
  | .str s => s = "1"
  | .num (.finite q) => q = 1
  | .bool b => b
  | _ => false

/-- The joined value built for one row: the movement date is parsed only
from a truthy string and kept only when the row says the item moved. -/
def joinRow (row : MovementRow) : Movement :=
  let moved := movedTruthTest row.moved_last_12_months
  let lastMovementDate :=
    match row.last_movement_date with
    | some s => if s = "" then none else parseNetSuiteDate (some s)
    | none => none
  ⟨if moved then lastMovementDate else none, moved⟩

/-- The `movementMap`: fold the rows, keying each by `parseInt(item_id)`
when that is not `NaN`; a later row with the same id overwrites. -/
def movementMap (rows : List MovementRow) : Int → Option Movement :=
  rows.foldl
    (fun m row =>
      match parseInt row.item_id with
      | some id => fun k => if k = id then some (joinRow row) else m k
      | none => m)
    (fun _ => none)

/-- What the handler `$set`s for one id: the joined value when the id is in
the map, else the explicit no-movement default `{null, false}`. -/
def movementFor (rows : List MovementRow) (id : Int) : Movement :=
  match movementMap rows id with
  | some m => m
  | none => ⟨none, false⟩

/-- `updateOne({internalId: id}, {$set: ...})`: rewrite the movement fields
of every stored entry with that key. -/
def setMovement (store : List (Int × Movement)) (id : Int) (mv : Movement) :
    List (Int × Movement) :=
  store.map (fun e => if e.1 = id then (e.1, mv) else e)

/-- The per-batch update pass over the batch's item ids. -/
def movementLoop (rows : List MovementRow) :
    List Int → List (Int × Movement) → List (Int × Movement)
  | [], st => st
  | i :: rest, st => movementLoop rows rest (setMovement st i (movementFor rows i))

/-- The movement-enrichment pass for one batch of stored ids. -/
def updateMovementPass (store : List (Int × Movement)) (itemIds : List Int)
    (rows : List MovementRow) : List (Int × Movement) :=
  movementLoop rows itemIds store

/-! ## Upsert by `internalId`

Modelled from the spec: the persistent store itself (MongoDB via
`InventoryItem.findOneAndUpdate({ internalId }, doc, { upsert: true })`) is
an external collaborator, specified as atomic insert-or-replace keyed by
the unique `internalId` — replace the (unique) matching document, else
append. The document type is abstract. -/

/-- Insert-or-replace of `(key, doc)` in a keyed store. -/
def upsertByKey {α : Type} : List (Int × α) → Int → α → List (Int × α)
  | [], key, doc => [(key, doc)]
  | e :: rest, key, doc =>
    if e.1 = key then (key, doc) :: rest else e :: upsertByKey rest key doc

/-- `n` repetitions of the same upsert. -/
def upsertN {α : Type} : Nat → List (Int × α) → Int → α → List (Int × α)
  | 0, store, _, _ => store
  | n + 1, store, key, doc => upsertByKey (upsertN n store key doc) key doc

theorem netsuiteRequest_429_step (upstream : Nat → AttemptResult) (a r : Nat)
    (h : upstream a = .failure (some 429)) :
    netsuiteRequest upstream a (r + 1) =
      ⟨(netsuiteRequest upstream (a + 1) r).ok,
       (netsuiteRequest upstream (a + 1) r).attempts + 1,
       (4 - (r + 1)) * 5000 :: (netsuiteRequest upstream (a + 1) r).waits⟩ := by
  simp [netsuiteRequest, h]

theorem netsuiteRequest_otherFail (upstream : Nat → AttemptResult) (a r : Nat)
    (st : Option Nat) (hst : st ≠ some 429) (h : upstream a = .failure st) :
    netsuiteRequest upstream a r = ⟨false, 1, []⟩ := by
  cases r with
  | zero => simp [netsuiteRequest, h]
  | succ r => simp [netsuiteRequest, h, hst]

/-- Claim C2: when every attempt fails with HTTP status 429,
`netsuiteRequest` with its default budget of 3 retries makes exactly 4
attempts, waiting `k * 5000` ms before retry `k`, and then surfaces the
failure; when the first attempt fails with any status other than 429
(including no status at all), it fails after that single attempt with no
retry and no wait. -/
theorem rateLimiterRetryBound (upstreamAll429 upstreamOther : Nat → AttemptResult)
    (h429 : ∀ i, upstreamAll429 i = .failure (some 429))
    (st : Option Nat) (hst : st ≠ some 429)
    (hother : upstreamOther 0 = .failure st) :
    netsuiteRequest upstreamAll429 0 3 = ⟨false, 4, [1 * 5000, 2 * 5000, 3 * 5000]⟩ ∧
    netsuiteRequest upstreamOther 0 3 = ⟨false, 1, []⟩ := by
  refine ⟨?_, netsuiteRequest_otherFail upstreamOther 0 3 st hst hother⟩
  rw [netsuiteRequest_429_step upstreamAll429 0 2 (h429 0),
      netsuiteRequest_429_step upstreamAll429 1 1 (h429 1),
      netsuiteRequest_429_step upstreamAll429 2 0 (h429 2)]
  simp [netsuiteRequest, h429 3]

/-- Witness for C2 at concrete upstreams: an always-429 upstream and an
upstream failing with status 500. -/
theorem rateLimiterRetryBound_witness :
    netsuiteRequest (fun _ => .failure (some 429)) 0 3 =
      ⟨false, 4, [1 * 5000, 2 * 5000, 3 * 5000]⟩ ∧
    netsuiteRequest (fun _ => .failure (some 500)) 0 3 = ⟨false, 1, []⟩ :=
  rateLimiterRetryBound (fun _ => .failure (some 429)) (fun _ => .failure (some 500))
    (fun _ => rfl) (some 500) (by decide) rfl

/-- Claim C6 is refuted on the code: a malformed string that still has
exactly three `/`-separated parts is not mapped to `null` — `parseInt`
yields `NaN` on a non-numeric part and `new Date(NaN, NaN, NaN)` is an
Invalid Date object, which `parseNetSuiteDate` returns. -/
theorem parseNetSuiteDate_counterexample :
    parseNetSuiteDate (some "a/b/c") = some JSDate.invalid ∧
    some JSDate.invalid ≠ (none : Option JSDate) := by
  exact ⟨by decide, by decide⟩

/-- Claim C6 (amended): `"15/03/2024"` parses to the date 2024-03-15;
absent and empty inputs give `null`; a string that does not split into
exactly three `/`-separated parts gives `null`; the function never throws
(it is total). Only a three-part malformed string escapes the `null`
contract, producing an Invalid Date instead. -/
theorem parseNetSuiteDate_spec :
    parseNetSuiteDate (some "15/03/2024") = some (.mk 2024 2 15) ∧
    parseNetSuiteDate none = none ∧
    parseNetSuiteDate (some "") = none ∧
    (∀ s : String, s ≠ "" → (splitStr '/' s).length ≠ 3 →
      parseNetSuiteDate (some s) = none) := by
  refine ⟨by decide, rfl, by decide, ?_⟩
  intro s hs hlen
  rcases hsp : splitStr '/' s with _ | ⟨p1, _ | ⟨p2, _ | ⟨p3, _ | rest⟩⟩⟩ <;>
    simp [parseNetSuiteDate, hs, hsp] at hlen ⊢

/-- Witness for C6's amended theorem: `"abc"` has one slash-part, so the
parser returns `null`. -/
theorem parseNetSuiteDate_spec_witness : parseNetSuiteDate (some "abc") = none :=
  parseNetSuiteDate_spec.2.2.2 "abc" (by decide) (by decide)

/-- Replaying an upsert of the same document at the same key leaves the
store unchanged. -/
theorem upsertByKey_idem {α : Type} (store : List (Int × α)) (key : Int) (doc : α) :
    upsertByKey (upsertByKey store key doc) key doc = upsertByKey store key doc := by
  induction store with
  | nil => simp [upsertByKey]
  | cons e rest ih =>
    by_cases h : e.1 = key
    · simp [upsertByKey, h]
    · simp [upsertByKey, h, ih]

/-- Claim C9: the upsert-by-`internalId` write is idempotent — the stored
state after `n ≥ 1` identical upserts equals the state after one. -/
theorem idempotentUpsert {α : Type} (store : List (Int × α)) (key : Int) (doc : α)
    (n : Nat) (hn : 1 ≤ n) :
    upsertN n store key doc = upsertByKey store key doc := by
  induction n with
  | zero => exact absurd hn (by decide)
  | succ n ih =>
    cases Nat.eq_or_lt_of_le hn with
    | inl h => rw [← h]; rfl
    | inr h =>
      have h1 : 1 ≤ n := Nat.lt_succ_iff.mp h
      show upsertByKey (upsertN n store key doc) key doc = upsertByKey store key doc
      rw [ih h1, upsertByKey_idem]

/-- Witness for C9: two identical upserts into an empty store at key 1. -/
theorem idempotentUpsert_witness :
    upsertN 2 ([] : List (Int × String)) 1 "record" = upsertByKey [] 1 "record" :=
  idempotentUpsert [] 1 "record" 2 (by decide)

/-- Claim C3 (amended): in the full-sweep script, a base record whose
`isInactive` flag is `true` triggers no price fetch and no location fetch,
and the enrichment result carries `price = 0` (currency HKD, zero
trade/retail), `locationsData = []` and `totalQuantity = 0`. (The copy of
the fetcher in `src/scripts/syncInventory.js` lacks this short-circuit —
see the counterexample.) -/
theorem inactiveShortCircuit (data : ItemRecord) (hin : data.isInactive = some true)
    (priceOracle : Href → PriceData) (locOracle : Href → List LocationData) :
    fetchInventoryItemDetail (some data) priceOracle locOracle =
      (some ⟨data, some true, ⟨0, "HKD", 0, 0⟩, [], 0⟩, ⟨0, 0⟩) := by
  simp [fetchInventoryItemDetail, hin]

/-- Witness for C3 at a concrete inactive record that carries both a price
link and a locations link, with oracles that would return nonzero data. -/
theorem inactiveShortCircuit_witness :
    fetchInventoryItemDetail (some ⟨some true, [⟨"p"⟩], none, [⟨"l"⟩]⟩)
        (fun _ => ⟨55, "HKD", 55, 55⟩) (fun _ => [⟨"1", "w", 3, 4⟩]) =
      (some ⟨⟨some true, [⟨"p"⟩], none, [⟨"l"⟩]⟩, some true, ⟨0, "HKD", 0, 0⟩, [], 0⟩,
       ⟨0, 0⟩) :=
  inactiveShortCircuit ⟨some true, [⟨"p"⟩], none, [⟨"l"⟩]⟩ rfl
    (fun _ => ⟨55, "HKD", 55, 55⟩) (fun _ => [⟨"1", "w", 3, 4⟩])

/-- Claim C3 as stated is refuted on the `src/scripts/syncInventory.js`
copy of the fetcher (cited by the claim): an inactive base record with a
price link still issues the price fetch, and the result's price is the
fetched one, not 0. -/
theorem inactiveShortCircuit_counterexample :
    (SyncScript.fetchInventoryItemDetail (some ⟨some true, [⟨"p"⟩], none, []⟩)
        (fun _ => ⟨55, "HKD", 55, 55⟩) (fun _ => [])).2.priceFetches = 1 ∧
    ((SyncScript.fetchInventoryItemDetail (some ⟨some true, [⟨"p"⟩], none, []⟩)
        (fun _ => ⟨55, "HKD", 55, 55⟩) (fun _ => [])).1.map
        (fun e => e.priceData.price)) = some 55 :=
  ⟨rfl, rfl⟩

/-- A falsy-collapsed value is never `undefined`. -/
theorem orEmpty_ne_undef (v : JSValue) : orEmpty v ≠ JSValue.undef := by
  unfold orEmpty
  by_cases h : truthy v = true
  · rw [if_pos h]
    intro hv
    rw [hv] at h
    simp [truthy] at h
  · rw [if_neg h]
    simp

/-- A falsy value collapses to the empty string. -/
theorem orEmpty_falsy (v : JSValue) (h : truthy v = false) : orEmpty v = .str "" := by
  simp [orEmpty, h]

/-- Claim C10: `extractValue` is total and never yields `undefined`; a
missing path segment, or a falsy terminal value (the number 0, `false`,
`null`, the empty string), yields the empty string — so a genuinely stored
`0` or `false` is indistinguishable from an absent field. -/
theorem extractValueFalsyCollapse (data : JSValue) (fieldPath : String) :
    extractValue data fieldPath ≠ JSValue.undef ∧
    (extractFieldsLoop data (splitStr '.' fieldPath) = none →
      extractValue data fieldPath = .str "") ∧
    (∀ v, extractFieldsLoop data (splitStr '.' fieldPath) = some v → truthy v = false →
      extractValue data fieldPath = .str "") ∧
    extractValue (.obj [("a", .num (.finite 0))]) "a" = .str "" ∧
    extractValue (.obj [("a", .bool false)]) "a" = .str "" ∧
    extractValue (.obj [("a", .null)]) "a" = .str "" ∧
    extractValue (.obj []) "a" = .str "" := by
  refine ⟨?_, ?_, ?_, ?_, ?_, ?_, ?_⟩
  · cases h : extractFieldsLoop data (splitStr '.' fieldPath) with
    | none => simp [extractValue, h]
    | some v =>
      cases v with
      | obj fs =>
        cases hrn : getField fs "refName" with
        | none => simpa [extractValue, h, hrn] using orEmpty_ne_undef (.obj fs)
        | some rn => simpa [extractValue, h, hrn] using orEmpty_ne_undef rn
      | null => simpa [extractValue, h] using orEmpty_ne_undef .null
      | undef => simpa [extractValue, h] using orEmpty_ne_undef .undef
      | bool b => simpa [extractValue, h] using orEmpty_ne_undef (.bool b)
      | num n => simpa [extractValue, h] using orEmpty_ne_undef (.num n)
      | str s => simpa [extractValue, h] using orEmpty_ne_undef (.str s)
  · intro h
    simp [extractValue, h]
  · intro v hv ht
    cases v with
    | obj fs => simp [truthy] at ht
    | null => simp [extractValue, hv, orEmpty_falsy _ ht]
    | undef => simp [extractValue, hv, orEmpty_falsy _ ht]
    | bool b => simp [extractValue, hv, orEmpty_falsy _ ht]
    | num n => simp [extractValue, hv, orEmpty_falsy _ ht]
    | str s => simp [extractValue, hv, orEmpty_falsy _ ht]
  · rfl
  · rfl
  · rfl
  · rfl

/-- Witness for C10: the stored number 0 collapses to the empty string,
via the falsy-terminal clause at a concrete object and path. -/
theorem extractValueFalsyCollapse_witness :
    extractValue (.obj [("a", .num (.finite 0))]) "a" = .str "" :=
  (extractValueFalsyCollapse (.obj [("a", .num (.finite 0))]) "a").2.2.1
    (.num (.finite 0)) rfl rfl

/-- Claim C5 is refuted on the code: coercion does not always yield a
finite number. A string field `"Infinity"` passes `parseFloat` (which is
not `NaN`) and the infinite value is returned; a number-typed field is
returned as-is, `NaN` included. -/
theorem extractNumericValue_counterexample :
    extractNumericValue [("totalValue", .str "Infinity")] "totalValue" = .posInf ∧
    JNum.isFinite .posInf = false ∧
    extractNumericValue [("averageCost", .num .nan)] "averageCost" = .nan := by
  exact ⟨by decide, rfl, rfl⟩

/-- Claim C5 (amended): `extractNumericValue` is total and yields a number
for every input value; `null`, `undefined`, absent fields and strings whose
`parseFloat` is `NaN` (such as `"abc"`) yield `0.0`, `"12.5"` yields 12.5
and the number 7 yields 7; number-typed fields are returned unchanged and
string fields through `parseFloat`, so the result is finite except when the
field is a non-finite number or a string parsing to ±Infinity. -/
theorem extractNumericValue_spec (data : List (String × JSValue)) (f : String) :
    (getField data f = none → extractNumericValue data f = .finite 0) ∧
    (getField data f = some .null → extractNumericValue data f = .finite 0) ∧
    (getField data f = some .undef → extractNumericValue data f = .finite 0) ∧
    (∀ n, getField data f = some (.num n) → extractNumericValue data f = n) ∧
    (∀ s, getField data f = some (.str s) →
      extractNumericValue data f =
        (if (parseFloat s).isNaN then .finite 0 else parseFloat s)) ∧
    ((extractNumericValue data f).isFinite = false →
      (∃ n, getField data f = some (.num n) ∧ n.isFinite = false) ∨
      (∃ s, getField data f = some (.str s) ∧ (parseFloat s).isFinite = false ∧
        (parseFloat s).isNaN = false)) ∧
    extractNumericValue [("v", .str "abc")] "v" = .finite 0 ∧
    extractNumericValue [("v", .str "12.5")] "v" = .finite (25 / 2) ∧
    extractNumericValue [("v", .num (.finite 7))] "v" = .finite 7 ∧
    extractNumericValue [("v", .null)] "v" = .finite 0 ∧
    extractNumericValue [] "v" = .finite 0 := by
  refine ⟨?_, ?_, ?_, ?_, ?_, ?_, by decide, ?_, rfl, rfl, rfl⟩
  · intro h; simp [extractNumericValue, h]
  · intro h; simp [extractNumericValue, h]
  · intro h; simp [extractNumericValue, h]
  · intro n h; simp [extractNumericValue, h]
  · intro s h; simp [extractNumericValue, h]
  · intro hnf
    cases h : getField data f with
    | none => simp [extractNumericValue, h, JNum.isFinite] at hnf
    | some v =>
      cases v with
      | null => simp [extractNumericValue, h, JNum.isFinite] at hnf
      | undef => simp [extractNumericValue, h, JNum.isFinite] at hnf
      | bool b => simp [extractNumericValue, h, JNum.isFinite] at hnf
      | obj fs => simp [extractNumericValue, h, JNum.isFinite] at hnf
      | num n =>
        left
        refine ⟨n, rfl, ?_⟩
        simpa [extractNumericValue, h] using hnf
      | str s =>
        right
        refine ⟨s, rfl, ?_, ?_⟩
        · by_cases hnan : (parseFloat s).isNaN = true
          · simp [extractNumericValue, h, hnan, JNum.isFinite] at hnf
          · simpa [extractNumericValue, h, hnan] using hnf
        · by_cases hnan : (parseFloat s).isNaN = true
          · simp [extractNumericValue, h, hnan, JNum.isFinite] at hnf
          · simpa using hnan
  · have hp : parseFloat "12.5" = .finite (litValue false 125 1 0) := by
      have h : parseFloatRaw "12.5" = (false, .lit 125 1 0) := by decide
      simp [parseFloat, h]
    have : extractNumericValue [("v", .str "12.5")] "v" =
        (if (parseFloat "12.5").isNaN then .finite 0 else parseFloat "12.5") := rfl
    rw [this, hp]
    simp only [JNum.isNaN, if_false, Bool.false_eq_true]
    norm_num [litValue]

/-- Witness for C5's amended theorem: an absent field coerces to 0. -/
theorem extractNumericValue_spec_witness :
    extractNumericValue [] "v" = .finite 0 :=
  (extractNumericValue_spec [] "v").1 rfl

theorem levelCount_none (name : String) (rest : List (Option PriceDetail)) :
    levelCount name (none :: rest) = levelCount name rest := by
  simp [levelCount]

theorem levelCount_some (name : String) (d : PriceDetail) (rest : List (Option PriceDetail)) :
    levelCount name (some d :: rest) =
      levelCount name rest + (if d.priceLevelName == name then 1 else 0) := by
  simp [levelCount, List.countP_cons]

theorem levelVal_none (name : String) (rest : List (Option PriceDetail)) :
    levelVal name (none :: rest) = levelVal name rest := by
  simp [levelVal]

theorem levelVal_some (name : String) (d : PriceDetail) (rest : List (Option PriceDetail)) :
    levelVal name (some d :: rest) =
      if d.priceLevelName == name then some (d.price.getD 0) else levelVal name rest := by
  have hfm : List.filterMap id (some d :: rest) = d :: List.filterMap id rest := by simp
  by_cases h : (d.priceLevelName == name) = true
  · rw [if_pos h]
    simp only [levelVal, hfm]
    rw [@List.find?_cons_of_pos _ (fun x => x.priceLevelName == name) d
      (List.filterMap id rest) h]
    rfl
  · rw [if_neg h]
    simp only [levelVal, hfm]
    rw [@List.find?_cons_of_neg _ (fun x => x.priceLevelName == name) d
      (List.filterMap id rest) h]

/-- Once both levels were found, the scan breaks immediately. -/
theorem priceScanLoop_both (ds : List (Option PriceDetail)) (st : PriceScanState)
    (hT : st.hasTradePrice = true) (hR : st.hasRetailPrice = true) :
    priceScanLoop ds st = st := by
  cases ds with
  | nil => rfl
  | cons d rest => simp [priceScanLoop, hT, hR]

/-- Scan behaviour after the trade level was found, over a remainder with
no further `"WLP (Base)"` level. -/
theorem priceScanLoop_tradeSet (ds : List (Option PriceDetail)) :
    ∀ st : PriceScanState, st.hasTradePrice = true → st.hasRetailPrice = false →
    levelCount "WLP (Base)" ds = 0 →
    priceScanLoop ds st =
      match levelVal "LPCP (HKD)" ds with
      | none => st
      | some v => { st with retailPrice := v, price := v, currency := "HKD",
                            hasRetailPrice := true } := by
  induction ds with
  | nil => intro st hT hR hW; rfl
  | cons d rest ih =>
    intro st hT hR hW
    cases d with
    | none =>
      rw [levelVal_none]
      rw [levelCount_none] at hW
      simpa [priceScanLoop, hT, hR] using ih st hT hR hW
    | some detail =>
      rw [levelCount_some] at hW
      have hdW : (detail.priceLevelName == "WLP (Base)") = false := by
        by_cases h : detail.priceLevelName == "WLP (Base)" <;> simp [h] at hW ⊢
      have hW' : levelCount "WLP (Base)" rest = 0 := by omega
      have hne : ¬ detail.priceLevelName = "WLP (Base)" := by simpa using hdW
      rw [levelVal_some]
      by_cases hdL : detail.priceLevelName = "LPCP (HKD)"
      · simp only [priceScanLoop, hT, hR, Bool.and_false, Bool.false_eq_true, if_false,
          if_neg hne, if_pos hdL]
        rw [priceScanLoop_both _ _ (by simpa using hT) rfl]
        simp [hdL, hT]
      · simp only [priceScanLoop, hT, hR, Bool.and_false, Bool.false_eq_true, if_false,
          if_neg hne, if_neg hdL]
        have h2 := ih st hT hR hW'
        rw [if_neg (show ¬(detail.priceLevelName == "LPCP (HKD)") = true by simpa using hdL)]
        simp only [hT, hR] at h2 ⊢
        exact h2

/-- Scan behaviour after the retail level was found, over a remainder with
no further `"LPCP (HKD)"` level. -/
theorem priceScanLoop_retailSet (ds : List (Option PriceDetail)) :
    ∀ st : PriceScanState, st.hasTradePrice = false → st.hasRetailPrice = true →
    levelCount "LPCP (HKD)" ds = 0 →
    priceScanLoop ds st =
      match levelVal "WLP (Base)" ds with
      | none => st
      | some v => { st with tradePrice := v, hasTradePrice := true } := by
  induction ds with
  | nil => intro st hT hR hL; rfl
  | cons d rest ih =>
    intro st hT hR hL
    cases d with
    | none =>
      rw [levelVal_none]
      rw [levelCount_none] at hL
      simpa [priceScanLoop, hT, hR] using ih st hT hR hL
    | some detail =>
      rw [levelCount_some] at hL
      have hdL : (detail.priceLevelName == "LPCP (HKD)") = false := by
        by_cases h : detail.priceLevelName == "LPCP (HKD)" <;> simp [h] at hL ⊢
      have hL' : levelCount "LPCP (HKD)" rest = 0 := by omega
      have hneL : ¬ detail.priceLevelName = "LPCP (HKD)" := by simpa using hdL
      rw [levelVal_some]
      by_cases hdW : detail.priceLevelName = "WLP (Base)"
      · simp only [priceScanLoop, hT, hR, Bool.false_and, Bool.false_eq_true, if_false,
          if_pos hdW, if_neg hneL]
        rw [priceScanLoop_both _ _ rfl (by simpa using hR)]
        simp [hdW, hR]
      · simp only [priceScanLoop, hT, hR, Bool.false_and, Bool.false_eq_true, if_false,
          if_neg hdW, if_neg hneL]
        have h2 := ih st hT hR hL'
        rw [if_neg (show ¬(detail.priceLevelName == "WLP (Base)") = true by simpa using hdW)]
        simp only [hT, hR] at h2 ⊢
        exact h2

/-- Full characterisation of the price scan from the initial flags, for
detail lists containing at most one `"WLP (Base)"` and at most one
`"LPCP (HKD)"` level. -/
theorem priceScanLoop_run (ds : List (Option PriceDetail)) :
    ∀ st : PriceScanState, st.hasTradePrice = false → st.hasRetailPrice = false →
    levelCount "WLP (Base)" ds ≤ 1 → levelCount "LPCP (HKD)" ds ≤ 1 →
    priceScanLoop ds st =
      (match levelVal "LPCP (HKD)" ds, levelVal "WLP (Base)" ds with
       | none, none => st
       | none, some w => ⟨st.price, st.currency, w, st.retailPrice, true, st.hasRetailPrice⟩
       | some v, none => ⟨v, "HKD", st.tradePrice, v, st.hasTradePrice, true⟩
       | some v, some w => ⟨v, "HKD", w, v, true, true⟩) := by
  induction ds with
  | nil => intro st hT hR _ _; rfl
  | cons d rest ih =>
    intro st hT hR hW hL
    cases d with
    | none =>
      rw [levelVal_none, levelVal_none]
      rw [levelCount_none] at hW
      rw [levelCount_none] at hL
      simpa [priceScanLoop, hT, hR] using ih st hT hR hW hL
    | some detail =>
      rw [levelCount_some] at hW hL
      rw [levelVal_some, levelVal_some]
      by_cases hdW : detail.priceLevelName = "WLP (Base)"
      · have hdnL : ¬ detail.priceLevelName = "LPCP (HKD)" := by
          rw [hdW]; decide
        have hWr : levelCount "WLP (Base)" rest = 0 := by
          simp only [show (detail.priceLevelName == "WLP (Base)") = true by simpa using hdW,
            if_true] at hW
          omega
        simp only [priceScanLoop, hT, Bool.false_and, Bool.false_eq_true, if_false,
          if_pos hdW, if_neg hdnL]
        rw [priceScanLoop_tradeSet rest
          { st with tradePrice := detail.price.getD 0, hasTradePrice := true }
          rfl (by simpa using hR) hWr]
        rw [if_pos (show (detail.priceLevelName == "WLP (Base)") = true by simpa using hdW),
            if_neg (show ¬(detail.priceLevelName == "LPCP (HKD)") = true by simpa using hdnL)]
        cases levelVal "LPCP (HKD)" rest <;> rfl
      · by_cases hdL : detail.priceLevelName = "LPCP (HKD)"
        · have hLr : levelCount "LPCP (HKD)" rest = 0 := by
            simp only [show (detail.priceLevelName == "LPCP (HKD)") = true by simpa using hdL,
              if_true] at hL
            omega
          simp only [priceScanLoop]
          rw [if_neg (show ¬(st.hasTradePrice && st.hasRetailPrice) = true by simp [hT]),
              if_neg hdW, if_pos hdL]
          rw [priceScanLoop_retailSet rest
            { st with retailPrice := detail.price.getD 0, price := detail.price.getD 0,
                      currency := "HKD", hasRetailPrice := true }
            (by simpa using hT) rfl hLr]
          rw [if_pos (show (detail.priceLevelName == "LPCP (HKD)") = true by simpa using hdL),
              if_neg (show ¬(detail.priceLevelName == "WLP (Base)") = true by simpa using hdW)]
          cases levelVal "WLP (Base)" rest <;> rfl
        · have hWr : levelCount "WLP (Base)" rest ≤ 1 := by
            simp only [show (detail.priceLevelName == "WLP (Base)") = false by simpa using hdW,
              Bool.false_eq_true, if_false] at hW
            omega
          have hLr : levelCount "LPCP (HKD)" rest ≤ 1 := by
            simp only [show (detail.priceLevelName == "LPCP (HKD)") = false by simpa using hdL,
              Bool.false_eq_true, if_false] at hL
            omega
          simp only [priceScanLoop]
          rw [if_neg (show ¬(st.hasTradePrice && st.hasRetailPrice) = true by simp [hT]),
              if_neg hdW, if_neg hdL]
          rw [if_neg (show ¬(detail.priceLevelName == "LPCP (HKD)") = true by simpa using hdL),
              if_neg (show ¬(detail.priceLevelName == "WLP (Base)") = true by simpa using hdW)]
          exact ih st hT hR hWr hLr

/-- Claim C1 (amended): over level lists in which each special level
appears at most once, in any order: a `"WLP (Base)"` level sets
`tradePrice`; an `"LPCP (HKD)"` level sets `retailPrice` and the currency
`"HKD"`; the display price is the LPCP price when that price is nonzero,
and otherwise falls back to `tradePrice` (an LPCP level priced 0 — a falsy
price — does not become the display price); with no LPCP level the currency
stays at the item-currency default (HKD unless the item currency contains
EUR/USD); with no price reference at all the record-level default is
price 0, currency "HKD". -/
theorem priceSelectionPriority (itemCurrency : Option String)
    (ds : List (Option PriceDetail))
    (hW : levelCount "WLP (Base)" ds ≤ 1) (hL : levelCount "LPCP (HKD)" ds ≤ 1) :
    (fetchPriceInformation itemCurrency ds).tradePrice = (levelVal "WLP (Base)" ds).getD 0 ∧
    (fetchPriceInformation itemCurrency ds).retailPrice = (levelVal "LPCP (HKD)" ds).getD 0 ∧
    (fetchPriceInformation itemCurrency ds).price =
      (if (levelVal "LPCP (HKD)" ds).getD 0 ≠ 0 then (levelVal "LPCP (HKD)" ds).getD 0
       else (levelVal "WLP (Base)" ds).getD 0) ∧
    (fetchPriceInformation itemCurrency ds).currency =
      (if (levelVal "LPCP (HKD)" ds).isSome then "HKD" else initCurrency itemCurrency) ∧
    (∀ data : ItemRecord, ¬ data.isInactive = some true → data.priceLinks = [] →
      ∀ po lo, ((fetchInventoryItemDetail (some data) po lo).1.map (fun e => e.priceData)) =
        some ⟨0, "HKD", 0, 0⟩) := by
  have hfetch : ∀ data : ItemRecord, ¬ data.isInactive = some true → data.priceLinks = [] →
      ∀ po lo, ((fetchInventoryItemDetail (some data) po lo).1.map (fun e => e.priceData)) =
        some ⟨0, "HKD", 0, 0⟩ := by
    intro data hin hpl po lo
    simp [fetchInventoryItemDetail, hin, hpl]
  have hrun := priceScanLoop_run ds ⟨0, initCurrency itemCurrency, 0, 0, false, false⟩
    rfl rfl hW hL
  refine ⟨?_, ?_, ?_, ?_, hfetch⟩ <;>
    simp only [fetchPriceInformation, hrun] <;>
    cases hLv : levelVal "LPCP (HKD)" ds <;> cases hWv : levelVal "WLP (Base)" ds
  · simp
  · simp
  · simp
  · simp
  · simp
  · simp
  · simp
  · simp
  · simp
  · rename_i w
    by_cases hw : w = 0 <;> simp [hw]
  · rename_i v
    by_cases hv : v = 0 <;> simp [hv]
  · rename_i v w
    by_cases hv : v = 0 <;> by_cases hw : w = 0 <;> simp [hv, hw]
  · simp
  · simp
  · simp
  · simp

/-- Claim C1 as stated is refuted on the code: an `"LPCP (HKD)"` level
whose price is 0 sets `retailPrice = 0` but does not become the display
price — the `!price` fallback kicks in and the trade price is displayed;
and with an empty level list the currency is not always `"HKD"` but follows
the item currency. -/
theorem priceSelectionPriority_counterexample :
    fetchPriceInformation none
      [some ⟨"LPCP (HKD)", some 0⟩, some ⟨"WLP (Base)", some 100⟩] = ⟨100, "HKD", 100, 0⟩ ∧
    ((100 : ℚ) = 0) = False ∧
    (fetchPriceInformation (some "Euro EUR") []).currency = "EUR" := by
  refine ⟨by decide, by simp, by decide⟩

/-- Witness for C1 at the spec's own example in both orders:
levels `WLP (Base) = 100` and `LPCP (HKD) = 120`. -/
theorem priceSelectionPriority_witness :
    fetchPriceInformation none
      [some ⟨"WLP (Base)", some 100⟩, some ⟨"LPCP (HKD)", some 120⟩] = ⟨120, "HKD", 100, 120⟩ ∧
    fetchPriceInformation none
      [some ⟨"LPCP (HKD)", some 120⟩, some ⟨"WLP (Base)", some 100⟩] = ⟨120, "HKD", 100, 120⟩ := by
  have h1 := priceSelectionPriority none
    [some ⟨"WLP (Base)", some 100⟩, some ⟨"LPCP (HKD)", some 120⟩] (by decide) (by decide)
  have h2 := priceSelectionPriority none
    [some ⟨"LPCP (HKD)", some 120⟩, some ⟨"WLP (Base)", some 100⟩] (by decide) (by decide)
  obtain ⟨ht1, hr1, hp1, hc1, -⟩ := h1
  obtain ⟨ht2, hr2, hp2, hc2, -⟩ := h2
  constructor
  · have : fetchPriceInformation none
        [some ⟨"WLP (Base)", some 100⟩, some ⟨"LPCP (HKD)", some 120⟩] =
        ⟨(fetchPriceInformation none
            [some ⟨"WLP (Base)", some 100⟩, some ⟨"LPCP (HKD)", some 120⟩]).price,
         (fetchPriceInformation none
            [some ⟨"WLP (Base)", some 100⟩, some ⟨"LPCP (HKD)", some 120⟩]).currency,
         (fetchPriceInformation none
            [some ⟨"WLP (Base)", some 100⟩, some ⟨"LPCP (HKD)", some 120⟩]).tradePrice,
         (fetchPriceInformation none
            [some ⟨"WLP (Base)", some 100⟩, some ⟨"LPCP (HKD)", some 120⟩]).retailPrice⟩ := rfl
    rw [this, ht1, hr1, hp1, hc1]
    have e1 : levelVal "WLP (Base)"
        [some ⟨"WLP (Base)", some 100⟩, some ⟨"LPCP (HKD)", some 120⟩] = some 100 := by decide
    have e2 : levelVal "LPCP (HKD)"
        [some ⟨"WLP (Base)", some 100⟩, some ⟨"LPCP (HKD)", some 120⟩] = some 120 := by decide
    rw [e1, e2]
    norm_num [initCurrency]
  · have : fetchPriceInformation none
        [some ⟨"LPCP (HKD)", some 120⟩, some ⟨"WLP (Base)", some 100⟩] =
        ⟨(fetchPriceInformation none
            [some ⟨"LPCP (HKD)", some 120⟩, some ⟨"WLP (Base)", some 100⟩]).price,
         (fetchPriceInformation none
            [some ⟨"LPCP (HKD)", some 120⟩, some ⟨"WLP (Base)", some 100⟩]).currency,
         (fetchPriceInformation none
            [some ⟨"LPCP (HKD)", some 120⟩, some ⟨"WLP (Base)", some 100⟩]).tradePrice,
         (fetchPriceInformation none
            [some ⟨"LPCP (HKD)", some 120⟩, some ⟨"WLP (Base)", some 100⟩]).retailPrice⟩ := rfl
    rw [this, ht2, hr2, hp2, hc2]
    have e1 : levelVal "WLP (Base)"
        [some ⟨"LPCP (HKD)", some 120⟩, some ⟨"WLP (Base)", some 100⟩] = some 100 := by decide
    have e2 : levelVal "LPCP (HKD)"
        [some ⟨"LPCP (HKD)", some 120⟩, some ⟨"WLP (Base)", some 100⟩] = some 120 := by decide
    rw [e1, e2]
    norm_num [initCurrency]

theorem processItem_processed (st : SyncReport) (id : Nat) (o : ItemOutcome) :
    (processItem st id o).processed = st.processed + 1 := by
  cases o <;> rfl

theorem processItem_store_mono (st : SyncReport) (id : Nat) (o : ItemOutcome)
    (j : Nat) (hj : j ∈ st.store) : j ∈ (processItem st id o).store := by
  cases o with
  | saveOk =>
    simp only [processItem, upsertId]
    by_cases h : id ∈ st.store <;> simp [h, hj]
  | fetchNull => exact hj
  | procError m => exact hj
  | inactive => exact hj
  | saveError m => exact hj

theorem processItem_errors_mono (st : SyncReport) (id : Nat) (o : ItemOutcome)
    (p : Nat × String) (hp : p ∈ st.errors) : p ∈ (processItem st id o).errors := by
  cases o <;> simp [processItem, hp]

theorem processItem_saved (st : SyncReport) (id : Nat) (o : ItemOutcome) :
    (processItem st id o).saved = st.saved + (if o = .saveOk then 1 else 0) := by
  cases o <;> simp [processItem]

theorem processItem_err_mem (st : SyncReport) (id : Nat) (o : ItemOutcome) (m : String)
    (h : outcomeError o = some m) : (id, m) ∈ (processItem st id o).errors := by
  cases o <;> simp_all [outcomeError, processItem]

theorem processItem_saveOk_store (st : SyncReport) (id : Nat) :
    id ∈ (processItem st id .saveOk).store := by
  simp only [processItem, upsertId]
  by_cases h : id ∈ st.store <;> simp [h]

theorem syncLoop_processed (outcome : Nat → ItemOutcome) (ids : List Nat) :
    ∀ st : SyncReport, (syncLoop outcome ids st).processed = st.processed + ids.length := by
  induction ids with
  | nil => intro st; simp [syncLoop]
  | cons i rest ih =>
    intro st
    rw [syncLoop, ih, processItem_processed]
    simp [Nat.add_assoc, Nat.add_comm 1 rest.length]

theorem syncLoop_store_mono (outcome : Nat → ItemOutcome) (ids : List Nat) :
    ∀ (st : SyncReport) (j : Nat), j ∈ st.store → j ∈ (syncLoop outcome ids st).store := by
  induction ids with
  | nil => intro st j hj; exact hj
  | cons i rest ih =>
    intro st j hj
    exact ih _ j (processItem_store_mono st i (outcome i) j hj)

theorem syncLoop_errors_mono (outcome : Nat → ItemOutcome) (ids : List Nat) :
    ∀ (st : SyncReport) (p : Nat × String), p ∈ st.errors →
      p ∈ (syncLoop outcome ids st).errors := by
  induction ids with
  | nil => intro st p hp; exact hp
  | cons i rest ih =>
    intro st p hp
    exact ih _ p (processItem_errors_mono st i (outcome i) p hp)

theorem syncLoop_saved (outcome : Nat → ItemOutcome) (ids : List Nat) :
    ∀ st : SyncReport, (syncLoop outcome ids st).saved =
      st.saved + ids.countP (fun i => outcome i == .saveOk) := by
  induction ids with
  | nil => intro st; simp [syncLoop]
  | cons i rest ih =>
    intro st
    rw [syncLoop, ih, processItem_saved, List.countP_cons]
    by_cases h : outcome i = .saveOk <;> simp [h] <;> omega

theorem syncLoop_saveOk_mem (outcome : Nat → ItemOutcome) (ids : List Nat) :
    ∀ (st : SyncReport) (id : Nat), id ∈ ids → outcome id = .saveOk →
      id ∈ (syncLoop outcome ids st).store := by
  induction ids with
  | nil => intro st id h; simp at h
  | cons i rest ih =>
    intro st id hid hok
    rcases List.mem_cons.mp hid with h | h
    · subst h
      rw [syncLoop]
      apply syncLoop_store_mono
      rw [hok]
      exact processItem_saveOk_store st id
    · exact ih _ id h hok

theorem syncLoop_err_mem (outcome : Nat → ItemOutcome) (ids : List Nat) :
    ∀ (st : SyncReport) (id : Nat) (m : String), id ∈ ids →
      outcomeError (outcome id) = some m →
      (id, m) ∈ (syncLoop outcome ids st).errors := by
  induction ids with
  | nil => intro st id m h; simp at h
  | cons i rest ih =>
    intro st id m hid herr
    rcases List.mem_cons.mp hid with h | h
    · subst h
      rw [syncLoop]
      apply syncLoop_errors_mono
      exact processItem_err_mem st id (outcome id) m herr
    · exact ih _ id m h herr

/-- Claim C4: the full-sweep loop is fault-isolating — for any candidate
list and any per-id outcome, the report's `processed` equals the number of
candidates (the loop never aborts), every id whose save succeeded is in the
store afterwards, every id whose processing failed contributes its error
message to the error list, and `saved` counts exactly the successful
saves. -/
theorem perRecordFaultIsolation (store0 : List Nat) (ids : List Nat)
    (outcome : Nat → ItemOutcome) :
    (syncAllInventory store0 ids outcome).processed = ids.length ∧
    (∀ id ∈ ids, outcome id = .saveOk → id ∈ (syncAllInventory store0 ids outcome).store) ∧
    (∀ id ∈ ids, ∀ m, outcomeError (outcome id) = some m →
      (id, m) ∈ (syncAllInventory store0 ids outcome).errors) ∧
    (syncAllInventory store0 ids outcome).saved =
      ids.countP (fun i => outcome i == .saveOk) := by
  refine ⟨?_, ?_, ?_, ?_⟩
  · rw [syncAllInventory, syncLoop_processed]
    simp
  · intro id hid hok
    exact syncLoop_saveOk_mem outcome ids _ id hid hok
  · intro id hid m herr
    exact syncLoop_err_mem outcome ids _ id m hid herr
  · rw [syncAllInventory, syncLoop_saved]
    simp

/-- Witness for C4: ids 1..3 where id 2 throws — ids 1 and 3 end up stored,
the error for id 2 is recorded, and all three count as processed. -/
theorem perRecordFaultIsolation_witness :
    (syncAllInventory [] [1, 2, 3]
      (fun i => if i = 2 then .procError "boom" else .saveOk)).processed = 3 ∧
    1 ∈ (syncAllInventory [] [1, 2, 3]
      (fun i => if i = 2 then .procError "boom" else .saveOk)).store ∧
    3 ∈ (syncAllInventory [] [1, 2, 3]
      (fun i => if i = 2 then .procError "boom" else .saveOk)).store ∧
    (2, "boom") ∈ (syncAllInventory [] [1, 2, 3]
      (fun i => if i = 2 then .procError "boom" else .saveOk)).errors :=
  ⟨(perRecordFaultIsolation [] [1, 2, 3] _).1,
   (perRecordFaultIsolation [] [1, 2, 3] _).2.1 1 (by decide) (by decide),
   (perRecordFaultIsolation [] [1, 2, 3] _).2.1 3 (by decide) (by decide),
   (perRecordFaultIsolation [] [1, 2, 3] _).2.2.1 2 (by decide) "boom" (by decide)⟩

/-- Consuming a full leading page shifts the mock upstream by that page. -/
theorem pageAt_shift (p : List Nat) (rest : List (List Nat)) (hp : p ≠ []) (j : Nat) :
    pageAt (p :: rest) (p.length + j) = pageAt rest j := by
  have hpos : 0 < p.length := List.length_pos.mpr hp
  simp only [pageAt]
  rw [if_neg (by omega), if_pos (by omega)]
  congr 1
  omega

/-- The pagination loop over an aligned mock upstream collects exactly the
pages' concatenation: with no item cap, enough fuel, and every page before
the last non-empty, the loop starting anywhere returns its accumulator
followed by all remaining pages in order. -/
theorem fetchAllLoop_pages (limit : Nat) (fetch : Nat → Nat → Option FetchPage)
    (ps : List (List Nat)) :
    ∀ (fuel : Nat) (acc : List Nat) (off : Nat) (tot : Option Nat),
    ps.length + 1 ≤ fuel →
    (∀ p ∈ ps.dropLast, p ≠ []) →
    (∀ j itf, fetch (off + j) itf = some (pageAt ps j)) →
    fetchAllLoop fetch none limit fuel true acc off tot = acc ++ ps.flatten := by
  induction ps with
  | nil =>
    intro fuel acc off tot hfuel hne hfetch
    obtain ⟨f, rfl⟩ : ∃ f, fuel = f + 1 := ⟨fuel - 1, by omega⟩
    have h0 : fetch off limit = some (pageAt [] 0) := by simpa using hfetch 0 limit
    simp [fetchAllLoop, maxReached, h0, pageAt]
  | cons p rest ih =>
    intro fuel acc off tot hfuel hne hfetch
    obtain ⟨f, rfl⟩ : ∃ f, fuel = f + 1 := ⟨fuel - 1, by omega⟩
    have h0 : fetch off limit = some (pageAt (p :: rest) 0) := by simpa using hfetch 0 limit
    have hpage : pageAt (p :: rest) 0 = ⟨p, !rest.isEmpty, none⟩ := by simp [pageAt]
    rw [hpage] at h0
    rcases hrest : rest with _ | ⟨q, qs⟩
    · subst hrest
      simp [fetchAllLoop, maxReached, h0]
    · have hrne : rest ≠ [] := by rw [hrest]; simp
      have hp : p ≠ [] := by
        apply hne
        rw [List.dropLast_cons_of_ne_nil hrne]
        exact List.mem_cons_self _ _
      have hne' : ∀ x ∈ rest.dropLast, x ≠ [] := by
        intro x hx
        apply hne
        rw [List.dropLast_cons_of_ne_nil hrne]
        exact List.mem_cons_of_mem _ hx
      have hfetch' : ∀ j itf, fetch (off + p.length + j) itf = some (pageAt rest j) := by
        intro j itf
        rw [Nat.add_assoc, hfetch (p.length + j) itf, pageAt_shift p rest hp j]
      have hmore : (!rest.isEmpty) = true := by
        rw [hrest]; rfl
      rw [← hrest] at *
      simp only [fetchAllLoop, maxReached, h0, hmore]
      rw [ih f (acc ++ p) (off + p.length) tot (by simpa using hfuel) hne' hfetch']
      simp

/-- Claim C7: (a) completeness — over a mock upstream serving pages
`ps` consecutively (`hasMore` true until the last), the full sweep with no
item cap and sufficient fuel returns exactly the concatenation of all
pages in order; (b) the error step — when the fetch at the current offset
fails, the loop advances the offset by one page width (`limit`) and
continues, terminating (returning the accumulator) exactly when the
adjusted offset exceeds `totalResults || 100000` — 100000 both when no
total was observed and when the observed total is 0, which JavaScript's
`||` treats as falsy. -/
theorem paginationTermination (ps : List (List Nat)) (batchSize fuel : Nat)
    (fetch : Nat → Nat → Option FetchPage)
    (hne : ∀ p ∈ ps.dropLast, p ≠ [])
    (hfuel : ps.length + 1 ≤ fuel)
    (hfetch : ∀ j itf, fetch j itf = some (pageAt ps j))
    (fetchE : Nat → Nat → Option FetchPage) (limit efuel off : Nat)
    (acc : List Nat) (tot : Option Nat)
    (herr : fetchE off limit = none) :
    fetchAllInventoryItems fetch batchSize none fuel = ps.flatten ∧
    fetchAllLoop fetchE none limit (efuel + 1) true acc off tot =
      (if off + limit > totalBound tot then acc
       else fetchAllLoop fetchE none limit efuel true acc (off + limit) tot) := by
  constructor
  · have h := fetchAllLoop_pages (min batchSize 1000) fetch ps fuel [] 0 none hfuel hne
      (by intro j itf; simpa using hfetch j itf)
    simpa [fetchAllInventoryItems] using h
  · simp only [fetchAllLoop, maxReached, herr]
    by_cases hoff : off + limit > totalBound tot
    · rw [if_pos hoff]
      simp
    · rw [if_neg hoff]
      simp

/-- Witness for C7 with pages `[[1,2],[3]]` and an always-failing upstream
for the error step. -/
theorem paginationTermination_witness :
    fetchAllInventoryItems (fun off _ => some (pageAt [[1, 2], [3]] off)) 1000 none 3 =
      List.flatten [[1, 2], [3]] ∧
    fetchAllLoop (fun _ _ => none) none 5 (1 + 1) true [9] 0 none =
      (if 0 + 5 > totalBound none then [9]
       else fetchAllLoop (fun _ _ => none) none 5 1 true [9] (0 + 5) none) :=
  paginationTermination [[1, 2], [3]] 1000 3 (fun off _ => some (pageAt [[1, 2], [3]] off))
    (by decide) (by decide) (fun j itf => rfl) (fun _ _ => none) 5 1 0 [9] none rfl

/-- After `setMovement`, every entry with the updated key carries the new
movement value. -/
theorem setMovement_self (st : List (Int × Movement)) (id : Int) (mv : Movement) :
    ∀ e ∈ setMovement st id mv, e.1 = id → e.2 = mv := by
  intro e he heq
  simp only [setMovement, List.mem_map] at he
  obtain ⟨a, ha, hae⟩ := he
  by_cases h : a.1 = id
  · rw [if_pos h] at hae
    rw [← hae]
  · rw [if_neg h] at hae
    rw [← hae] at heq
    exact absurd heq h

/-- `setMovement` at a different key preserves a per-key value property. -/
theorem setMovement_preserve (st : List (Int × Movement)) (id : Int) (mv : Movement)
    (j : Int) (v : Movement) (hji : j ≠ id)
    (h : ∀ e ∈ st, e.1 = j → e.2 = v) :
    ∀ e ∈ setMovement st id mv, e.1 = j → e.2 = v := by
  intro e he heq
  simp only [setMovement, List.mem_map] at he
  obtain ⟨a, ha, hae⟩ := he
  by_cases hid : a.1 = id
  · rw [if_pos hid] at hae
    rw [← hae] at heq
    simp at heq
    exact absurd (heq ▸ hid) hji
  · rw [if_neg hid] at hae
    rw [← hae] at heq ⊢
    exact h a ha heq

/-- The batch update loop preserves a per-key value property for keys not
in the remaining id list. -/
theorem movementLoop_preserve (rows : List MovementRow) (ids : List Int) :
    ∀ (st : List (Int × Movement)) (j : Int) (v : Movement), j ∉ ids →
      (∀ e ∈ st, e.1 = j → e.2 = v) →
      ∀ e ∈ movementLoop rows ids st, e.1 = j → e.2 = v := by
  induction ids with
  | nil => intro st j v _ h; exact h
  | cons i rest ih =>
    intro st j v hj h
    have hji : j ≠ i := fun hc => hj (hc ▸ List.mem_cons_self i rest)
    have hjr : j ∉ rest := fun hc => hj (List.mem_cons_of_mem i hc)
    exact ih _ j v hjr (setMovement_preserve st i (movementFor rows i) j v hji h)

/-- Every entry whose key is one of the processed ids ends the batch pass
holding exactly the joined value for that key. -/
theorem movementLoop_key (rows : List MovementRow) (ids : List Int) :
    ∀ (st : List (Int × Movement)) (id : Int), id ∈ ids →
      ∀ e ∈ movementLoop rows ids st, e.1 = id → e.2 = movementFor rows id := by
  induction ids with
  | nil => intro st id h; simp at h
  | cons i rest ih =>
    intro st id hid
    by_cases hmem : id ∈ rest
    · exact ih _ id hmem
    · have hidi : id = i := by
        rcases List.mem_cons.mp hid with h | h
        · exact h
        · exact absurd h hmem
      subst hidi
      exact movementLoop_preserve rows rest _ id (movementFor rows id) hmem
        (setMovement_self st id (movementFor rows id))

/-- Claim C8: after the movement-enrichment pass over a batch of stored
ids, every stored entry whose id was in the batch holds exactly the joined
value for that id — the joined row's data when the id occurs in the
upstream result, and explicitly `{lastMovementDate = null,
movedLast12Months = false}` when it does not (never left stale). The final
conjunct replays the spec's example: stored ids 1,2,3 with stale movement
data and a result row only for id 2. -/
theorem movementJoinCompleteness (store : List (Int × Movement)) (itemIds : List Int)
    (rows : List MovementRow) (id : Int) (hid : id ∈ itemIds) :
    (∀ e ∈ updateMovementPass store itemIds rows, e.1 = id →
      e.2 = movementFor rows id) ∧
    (∀ m, movementMap rows id = some m → movementFor rows id = m) ∧
    (movementMap rows id = none → movementFor rows id = ⟨none, false⟩) ∧
    updateMovementPass
      [(1, ⟨some (.mk 2020 0 1), true⟩), (2, ⟨some (.mk 2020 0 1), true⟩),
       (3, ⟨some (.mk 2020 0 1), true⟩)]
      [1, 2, 3] [⟨"2", .str "1", some "01/02/2024"⟩] =
      [(1, ⟨none, false⟩), (2, ⟨some (.mk 2024 1 1), true⟩), (3, ⟨none, false⟩)] := by
  refine ⟨movementLoop_key rows itemIds store id hid, ?_, ?_, by decide⟩
  · intro m hm
    simp [movementFor, hm]
  · intro hm
    simp [movementFor, hm]

/-- Witness for C8 at the spec's example: ids `{1,2,3}` with an upstream
row only for id 2. -/
theorem movementJoinCompleteness_witness :
    (∀ e ∈ updateMovementPass
        [(1, ⟨some (.mk 2020 0 1), true⟩), (2, ⟨some (.mk 2020 0 1), true⟩),
         (3, ⟨some (.mk 2020 0 1), true⟩)]
        [1, 2, 3] [⟨"2", .str "1", some "01/02/2024"⟩], e.1 = 1 →
      e.2 = movementFor [⟨"2", .str "1", some "01/02/2024"⟩] 1) ∧
    movementFor [⟨"2", .str "1", some "01/02/2024"⟩] 1 = ⟨none, false⟩ :=
  ⟨(movementJoinCompleteness
      [(1, ⟨some (.mk 2020 0 1), true⟩), (2, ⟨some (.mk 2020 0 1), true⟩),
       (3, ⟨some (.mk 2020 0 1), true⟩)]
      [1, 2, 3] [⟨"2", .str "1", some "01/02/2024"⟩] 1 (by decide)).1,
   (movementJoinCompleteness
      [(1, ⟨some (.mk 2020 0 1), true⟩), (2, ⟨some (.mk 2020 0 1), true⟩),
       (3, ⟨some (.mk 2020 0 1), true⟩)]
      [1, 2, 3] [⟨"2", .str "1", some "01/02/2024"⟩] 1 (by decide)).2.2.1 (by decide)⟩

end OmtisScripts
